import Mathlib

/-!
Verification of the scheme-oxide front end (scanner and syntax-tree model).

The definitions below are a shallow embedding of the Rust sources:
  - src/ast.rs          : symbols, syntax-tree nodes, the list builder, reification
  - src/parser/tokenizer.rs : the regex-based lexical scanner

Rust `Vec<T>` is embedded as `List T`, `u64` as `Nat` reduced mod 2^64 where
overflow matters, `i64` payloads that are only stored & copied as `Int`,
`Option`/`Result` as `Option`/`Except`.  The runtime value model (the
`environment` module and the pair/object/interning code) is not part of the
sources; where a claim needs it, it is modelled from the spec and marked so.
-/

/-- `CoreSymbol` from src/ast.rs lines 29-43.  `and`/`or` keep their Rust
names where Lean allows; reserved words (`let`, `if`, ...) get a `Sym`
suffix, the mapping is one-to-one and order-preserving. -/
inductive CoreSymbol where
  | andSym
  | beginSym
  | orSym
  | letSym
  | letRecSym
  | letStarSym
  | lambdaSym
  | ifSym
  | setSym
  | errorSym
  | quoteSym
  | beginProgram
  | genUnspecified
deriving DecidableEq, Repr

/-- `CoreSymbol::get_name`, src/ast.rs lines 46-62. -/
def CoreSymbol.getName : CoreSymbol → String
  | .andSym => "and"
  | .beginSym => "begin"
  | .orSym => "or"
  | .letSym => "let"
  | .letRecSym => "letrec"
  | .letStarSym => "let*"
  | .lambdaSym => "lambda"
  | .ifSym => "if"
  | .setSym => "set"
  | .errorSym => "error"
  | .quoteSym => "quote"
  | .beginProgram => "$begin-program"
  | .genUnspecified => "$gen_unspecified"

/-- `AstSymbolInner`, src/ast.rs lines 65-70.  `Temp(u64)` counter values are
embedded as `Nat`; the generator below only ever produces values < 2^64. -/
inductive AstSymbolInner where
  | core (c : CoreSymbol)
  | temp (id : Nat)
  | defined (name : String)
deriving DecidableEq, Repr

/-- `AstSymbol`, src/ast.rs line 73 (a newtype over `AstSymbolInner`).
Equality is the derived structural equality, as in Rust (`derive(PartialEq)`). -/
structure AstSymbol where
  inner : AstSymbolInner
deriving DecidableEq, Repr

/-- `AstSymbol::new`, src/ast.rs lines 76-78. -/
def AstSymbol.new (name : String) : AstSymbol :=
  ⟨.defined name⟩

/-- `AstSymbol::gen_temp`, src/ast.rs lines 80-86.  The process-wide
`AtomicU64` counter is embedded by explicit state passing: the argument is the
current counter value (an invariant of the real program: always < 2^64), the
result is the fresh symbol (`Temp` of the old value, as `fetch_add` returns the
pre-increment value) paired with the new counter value (wrapping as `u64`). -/
def AstSymbol.genTemp (tempCount : Nat) : AstSymbol × Nat :=
  (⟨.temp tempCount⟩, (tempCount + 1) % 2 ^ 64)

/-- `AstSymbol::get_name`, src/ast.rs lines 88-94.
`format!("$temp$id{}", id)` becomes string append of the decimal digits. -/
def AstSymbol.getName (s : AstSymbol) : String :=
  match s.inner with
  | .core c => c.getName
  | .temp id => "$temp$id" ++ toString id
  | .defined name => name

/-- `AstNodeNonList`, src/ast.rs lines 230-235.  The `Number(i64)` payload is
only stored and compared by this core, never computed with, so it is embedded
as `Int`; `String(String)` keeps its text. -/
inductive AstNodeNonList where
  | number (n : Int)
  | symbol (s : AstSymbol)
  | str (s : String)
  | bool (b : Bool)
deriving DecidableEq, Repr

/-- `ListType`, src/ast.rs lines 104-107: the list-termination tag.  The
`Improper` payload is a non-list leaf, exactly as in the source. -/
inductive ListType where
  | proper
  | improper (tail : AstNodeNonList)
deriving DecidableEq, Repr

/-- `ListType::is_improper_list`, src/ast.rs lines 114-120. -/
def ListType.isImproperList : ListType → Bool
  | .proper => false
  | .improper _ => true

/-- `ListType::is_proper_list`, src/ast.rs lines 110-112. -/
def ListType.isProperList (t : ListType) : Bool :=
  !t.isImproperList

/-- `AstNode` / `AstNodeInner` / `AstList`, src/ast.rs lines 137-141 and
237-244.  `AstNode(AstNodeInner::List(AstList { nodes, list_type }))` is
flattened into the single constructor `AstNode.list nodes listType` (Lean
cannot nest a structure in a mutual block with an inductive); the standalone
`AstList` record below re-packages the two fields for builder results. -/
inductive AstNode where
  | list (nodes : List AstNode) (listType : ListType) : AstNode
  | nonList (x : AstNodeNonList) : AstNode
deriving Repr

/-- `AstList`, src/ast.rs lines 137-141, as a standalone record. -/
structure AstList where
  nodes : List AstNode
  listType : ListType
deriving Repr

/-- Re-wrap an `AstList` as the node `AstNodeInner::List(list)`. -/
def AstList.toNode (l : AstList) : AstNode :=
  .list l.nodes l.listType

/-- `AstList::is_improper_list`, src/ast.rs lines 166-168. -/
def AstList.isImproperList (l : AstList) : Bool :=
  l.listType.isImproperList

/-- `AstNode::is_improper_list`, src/ast.rs lines 329-335: true exactly for a
list node whose termination tag is `Improper`. -/
def AstNode.isImproperList : AstNode → Bool
  | .list _ lt => lt.isImproperList
  | .nonList _ => false

/-- `AstListBuilder`, src/ast.rs lines 188-190: a mutable `Vec<AstNode>`
accumulator, embedded as an immutable record threaded through the calls. -/
structure AstListBuilder where
  nodes : List AstNode
deriving Repr

/-- `AstListBuilder::new`, src/ast.rs lines 193-195. -/
def AstListBuilder.new : AstListBuilder :=
  ⟨[]⟩

/-- `AstListBuilder::push`, src/ast.rs lines 197-199 (`Vec::push` appends at
the end). -/
def AstListBuilder.push (b : AstListBuilder) (node : AstNode) : AstListBuilder :=
  ⟨b.nodes ++ [node]⟩

/-- `AstListBuilder::build_with_type`, src/ast.rs lines 201-207
(`shrink_to_fit` has no observable effect on the value). -/
def AstListBuilder.buildWithType (b : AstListBuilder) (listType : ListType) : AstList :=
  ⟨b.nodes, listType⟩

/-- `AstListBuilder::build`, src/ast.rs lines 209-211. -/
def AstListBuilder.build (b : AstListBuilder) : AstList :=
  b.buildWithType .proper

/-- `AstListBuilder::build_with_tail`, src/ast.rs lines 213-226.  On a list
tail: fail (`None`) when the accumulator is empty and the tail list is
improper, otherwise splice the tail list's nodes after the accumulated ones
and take over the tail's termination tag.  On a non-list tail: always succeed
with an improper list ending in that leaf.  Note the Rust signature returns
`Option<AstList>`: the failure case is `None` and carries nothing. -/
def AstListBuilder.buildWithTail (b : AstListBuilder) (node : AstNode) : Option AstList :=
  match node with
  | .list nodes lt =>
      if b.nodes.isEmpty && lt.isImproperList then
        none
      else
        some ((AstListBuilder.mk (b.nodes ++ nodes)).buildWithType lt)
  | .nonList x => some (b.buildWithType (ListType.improper x))

/-- Modelled from the spec: the runtime value representation (`SchemeType`
with its pair/object model) lives in `src/types.rs` plus the `environment`
and object/pair modules that are absent from src/.  Per spec sections 3, 4.2
and 6 the reification target needs exactly: the corresponding runtime scalars
(number, string, boolean singletons), one canonical interned symbol value per
printed name, a canonical empty-list sentinel, and a pair constructor.  Two
interned symbols are equal iff their names are (the interning map in
`src/types.rs::new_symbol` is keyed by the name and returns the cached object,
while distinct names get distinct fresh objects). -/
inductive SchemeType where
  | number (n : Int)
  | str (s : String)
  | symbol (name : String)
  | boolean (b : Bool)
  | emptyList
  | pair (car cdr : SchemeType)
deriving DecidableEq, Repr

/-- `new_symbol`, src/types.rs lines 33-51: the runtime's canonical interned
symbol value for a printed name (see the `SchemeType` model note). -/
def newSymbol (name : String) : SchemeType :=
  .symbol name

/-- The non-list arms of `AstNode::to_datum`, src/ast.rs lines 263-278:
a number stays a number, a symbol is interned under its printed name, a
string keeps its raw text, a boolean maps to the runtime boolean singletons. -/
def AstNodeNonList.toDatum : AstNodeNonList → SchemeType
  | .number n => .number n
  | .symbol s => newSymbol s.getName
  | .str s => .str s
  | .bool b => .boolean b

/-- `ListType::to_datum`, src/ast.rs lines 129-135: the termination tag of a
proper list reifies to the runtime empty-list sentinel, the tag of an improper
list reifies its (non-list) tail leaf. -/
def ListType.toDatum : ListType → SchemeType
  | .proper => SchemeType.emptyList
  | .improper tail => tail.toDatum

/-- `AstNode::to_datum`, src/ast.rs lines 263-279.  The list arm of the
source pushes each child's datum, in order, into a `ListFactory` and finishes
with `build_with_tail(list_type.to_datum())`; the factory (runtime code
absent from src/, spec sections 4.2 and 6) chains the pushed values into
nested pairs, the first pushed value becoming the head of the first pair and
the tail argument the final second slot.  That loop is embedded as the
element-wise recursion below: an empty list is just its reified termination
tag, a nonempty list is a pair of the reified head and the reification of the
rest. -/
def AstNode.toDatum : AstNode → SchemeType
  | .nonList x => x.toDatum
  | .list [] lt => lt.toDatum
  | .list (n :: rest) lt => .pair n.toDatum (AstNode.toDatum (.list rest lt))

/-- The double-quote character (written via its code point to keep character
literals simple). -/
def dquoteChar : Char := Char.ofNat 34

/-- The backslash character. -/
def backslashChar : Char := Char.ofNat 92

/-- The newline character. -/
def newlineChar : Char := Char.ofNat 10

/-- The single-quote (quote-mark) character. -/
def squoteChar : Char := Char.ofNat 39

/-- POSIX `[[:space:]]` as used by the rust regex crate: the six ASCII
whitespace characters (space, tab, newline, vertical tab, form feed,
carriage return), src/parser/tokenizer.rs line 48. -/
def isSpaceChar (c : Char) : Bool :=
  c = ' ' || c = Char.ofNat 9 || c = Char.ofNat 10 || c = Char.ofNat 11 ||
    c = Char.ofNat 12 || c = Char.ofNat 13

/-- `[0-9]`, ASCII digits. -/
def isDigitChar (c : Char) : Bool :=
  48 ≤ c.toNat && c.toNat ≤ 57

/-- POSIX `[[:alpha:]]`: ASCII letters. -/
def isAlphaChar (c : Char) : Bool :=
  (65 ≤ c.toNat && c.toNat ≤ 90) || (97 ≤ c.toNat && c.toNat ≤ 122)

/-- `special_initial = [!$%&*/:<=>?^_~]`, src/parser/tokenizer.rs line 52. -/
def isSpecialInitial (c : Char) : Bool :=
  c = '!' || c = '$' || c = '%' || c = '&' || c = '*' || c = '/' || c = ':' ||
    c = '<' || c = '=' || c = '>' || c = '?' || c = '^' || c = '_' || c = '~'

/-- `initial = [[:alpha:]] | special_initial`, src/parser/tokenizer.rs line 54. -/
def isInitial (c : Char) : Bool :=
  isAlphaChar c || isSpecialInitial c

/-- `special_subsequent = [+.@-]`, src/parser/tokenizer.rs line 53. -/
def isSpecialSubsequent (c : Char) : Bool :=
  c = '+' || c = '.' || c = '@' || c = '-'

/-- `subsequent = [0-9] | initial | special_subsequent`,
src/parser/tokenizer.rs line 55. -/
def isSubsequent (c : Char) : Bool :=
  isDigitChar c || isInitial c || isSpecialSubsequent c

/-- A character that can begin the delimiter pattern
`delmer = (?:whitespace|[()";]|$)`, src/parser/tokenizer.rs line 50
(`whitespace = [[:space:]] | ;.*`, and a comment begins with `;`, which the
bracket class also contains). -/
def isDelimChar (c : Char) : Bool :=
  isSpaceChar c || c = '(' || c = ')' || c = dquoteChar || c = ';'

/-- Whether `delmer` matches at this point of the input: it does exactly when
the input is exhausted (`$`) or the next character starts a whitespace run, a
comment, or is one of `( ) " ;`.  Only this one-character lookahead matters:
the delimiter text is never part of the reported token (the scanner resets
`end_of_token` to the capture-group end for every alternative that uses
`delmer`). -/
def delmerAt (s : List Char) : Bool :=
  match s with
  | [] => true
  | c :: _ => isDelimChar c

/-- The `[0-9]+ delmer` part of the number alternative,
src/parser/tokenizer.rs line 65: greedily take the digit run, then require a
delimiter.  Greedy matching loses nothing here: giving digits back would put
a digit (never a delimiter character) in front of `delmer`. -/
def matchNumberCore (s : List Char) : Option (List Char × List Char) :=
  let ds := s.takeWhile isDigitChar
  let rest := s.dropWhile isDigitChar
  if ds.isEmpty then none
  else if delmerAt rest then some (ds, rest) else none

/-- The number alternative `(?:(?P<number>(?:\+|-)?[0-9]+)delmer)`,
src/parser/tokenizer.rs line 65.  Returns the captured `number` text and the
input after the capture (the scanner advances only to `number.end()`,
src/parser/tokenizer.rs lines 177-179).  The optional sign is tried first
with the sign consumed, then without, mirroring the greedy `?`. -/
def matchNumber (s : List Char) : Option (List Char × List Char) :=
  match s with
  | [] => none
  | c :: t =>
      if c = '+' || c = '-' then
        match matchNumberCore t with
        | some (ds, rest) => some (c :: ds, rest)
        | none => matchNumberCore (c :: t)
      else matchNumberCore (c :: t)

/-- `normal_symbol delmer`: an initial character, a greedy run of subsequent
characters, then a delimiter (src/parser/tokenizer.rs lines 54-56, 59).
Greedy matching again loses nothing: subsequent characters are never
delimiter characters. -/
def matchNormalSymbol (s : List Char) : Option (List Char × List Char) :=
  match s with
  | [] => none
  | c :: t =>
      if isInitial c then
        let sub := t.takeWhile isSubsequent
        let rest := t.dropWhile isSubsequent
        if delmerAt rest then some (c :: sub, rest) else none
      else none

/-- `odd_symbol delmer`: exactly `+`, `-` or `...` followed by a delimiter
(src/parser/tokenizer.rs lines 58-59; the regex alternation `[+-]|\.{3}`
keeps its order, the branches touch disjoint first characters). -/
def matchOddSymbol (s : List Char) : Option (List Char × List Char) :=
  match s with
  | [] => none
  | c :: t =>
      if c = '+' || c = '-' then
        if delmerAt t then some ([c], t) else none
      else if c = '.' then
        match t with
        | '.' :: '.' :: r => if delmerAt r then some (['.', '.', '.'], r) else none
        | _ => none
      else none

/-- The symbol alternative, src/parser/tokenizer.rs line 59: normal symbols
are tried before odd symbols (their first characters are disjoint, so the
order cannot actually matter). -/
def matchSymbol (s : List Char) : Option (List Char × List Char) :=
  (matchNormalSymbol s).orElse fun _ => matchOddSymbol s

/-- The greedy string-body run `(?:[^"\\\n]|\\.)*`, src/parser/tokenizer.rs
line 61: ordinary characters (anything but quote, backslash, newline) are
taken one at a time, a backslash together with any following non-newline
character is taken as an unresolved escape, anything else stops the run.
Returns (body, rest).  Greediness is faithful: the run can only stop on
quote/backslash/newline or end of input, and backing an iteration off would
put a non-quote character in front of the required closing quote. -/
def takeStringBody : List Char → List Char × List Char
  | [] => ([], [])
  | c :: t =>
      if c = backslashChar then
        match t with
        | [] => ([], [c])
        | c2 :: t2 =>
            if c2 = newlineChar then ([], c :: c2 :: t2)
            else
              let (b, r) := takeStringBody t2
              (c :: c2 :: b, r)
      else if c = dquoteChar || c = newlineChar then ([], c :: t)
      else
        let (b, r) := takeStringBody t
        (c :: b, r)

/-- The good-string alternative `"(?P<goodStringBody>...)"`,
src/parser/tokenizer.rs line 62: opening quote, body, closing quote.  The
overall match end (just past the closing quote) is where the scanner
continues; the returned text is the raw body, escapes unresolved. -/
def matchGoodString (s : List Char) : Option (List Char × List Char) :=
  match s with
  | [] => none
  | c :: t =>
      if c = dquoteChar then
        let (b, r) := takeStringBody t
        match r with
        | [] => none
        | c2 :: r' => if c2 = dquoteChar then some (b, r') else none
      else none

/-- The block alternative `(?P<block>\(|\))`, src/parser/tokenizer.rs
line 67. -/
def matchBlock (s : List Char) : Option (Char × List Char) :=
  match s with
  | '(' :: t => some ('(', t)
  | ')' :: t => some (')', t)
  | _ => none

/-- One iteration of the whitespace pattern `[[:space:]]|;.*`,
src/parser/tokenizer.rs lines 47-48: one space character, or a `;` comment
running to (but not including) the next newline or the end of input. -/
def matchWhitespaceOne (s : List Char) : Option (List Char) :=
  match s with
  | [] => none
  | c :: t =>
      if isSpaceChar c then some t
      else if c = ';' then some (t.dropWhile fun d => !(d = newlineChar))
      else none

/-- The greedy `*` over further whitespace iterations, run with explicit
fuel (each iteration consumes at least one character, so `s.length` fuel is
always enough — proved below as `whitespaceStarAux_none`). -/
def whitespaceStarAux : Nat → List Char → List Char
  | 0, s => s
  | fuel + 1, s =>
      match matchWhitespaceOne s with
      | some t => whitespaceStarAux fuel t
      | none => s

/-- The whitespace alternative `(?P<whitespace>(?:[[:space:]]|;.*)+)`,
src/parser/tokenizer.rs lines 48, 79-80: one iteration, then greedily as
many more as match.  This alternative consumes its whole match. -/
def matchWhitespacePlus (s : List Char) : Option (List Char) :=
  match matchWhitespaceOne s with
  | some t => some (whitespaceStarAux t.length t)
  | none => none

/-- The bad-EOF-string alternative `"(?P<badEofStringBody>...)\\?$`,
src/parser/tokenizer.rs line 63: opening quote, body, an optional trailing
lone backslash, then end of input. -/
def matchBadEofString (s : List Char) : Option Unit :=
  match s with
  | [] => none
  | c :: t =>
      if c = dquoteChar then
        let (_, r) := takeStringBody t
        match r with
        | [] => some ()
        | [c2] => if c2 = backslashChar then some () else none
        | _ => none
      else none

/-- The clipped alternative `(?P<clipped>(?:\.{2}|#)$)`,
src/parser/tokenizer.rs line 76: exactly `..` or `#` at the very end of the
input. -/
def matchClipped (s : List Char) : Option Unit :=
  match s with
  | ['.', '.'] => some ()
  | ['#'] => some ()
  | _ => none

/-- The boolean alternative `(?:(?P<boolean>#t|#f)delmer)`,
src/parser/tokenizer.rs line 69. -/
def matchBoolean (s : List Char) : Option (Bool × List Char) :=
  match s with
  | '#' :: 't' :: t => if delmerAt t then some (true, t) else none
  | '#' :: 'f' :: t => if delmerAt t then some (false, t) else none
  | _ => none

/-- The dot alternative `(?:(?P<dot>\.)delmer)`, src/parser/tokenizer.rs
line 71. -/
def matchDot (s : List Char) : Option (List Char) :=
  match s with
  | '.' :: t => if delmerAt t then some t else none
  | _ => none

/-- The quote-mark alternative `(?P<mark>')`, src/parser/tokenizer.rs
line 73. -/
def matchMark (s : List Char) : Option (List Char) :=
  match s with
  | c :: t => if c = squoteChar then some t else none
  | [] => none

/-- Which alternative of the unified rule matched, with its captured text and
the input left after the semantic token (the capture-group end for the
alternatives that use `delmer` lookahead, the whole-match end otherwise).
The anchored regex of src/parser/tokenizer.rs lines 78-81 yields exactly one
alternative's capture groups, so one constructor carries everything
`gen_token` later inspects. -/
inductive MatchRes where
  | number (text rest : List Char)
  | symbol (text rest : List Char)
  | goodString (body rest : List Char)
  | block (c : Char) (rest : List Char)
  | whitespace (rest : List Char)
  | badEofString
  | clipped
  | boolean (b : Bool) (rest : List Char)
  | dot (rest : List Char)
  | mark (rest : List Char)
deriving DecidableEq, Repr

/-- `REGEX.captures(input)` for the anchored regex built by `gen_regex`,
src/parser/tokenizer.rs lines 46-84: the rust regex crate uses
leftmost-first alternation, so the first alternative (in the order of
`regex_str`, line 79: number, symbol, good string, block, whitespace,
bad-EOF string, clipped, boolean, dot, mark) that matches at the start of
the input wins. -/
def runRegex (s : List Char) : Option MatchRes :=
  ((matchNumber s).map fun p => MatchRes.number p.1 p.2).orElse fun _ =>
  ((matchSymbol s).map fun p => MatchRes.symbol p.1 p.2).orElse fun _ =>
  ((matchGoodString s).map fun p => MatchRes.goodString p.1 p.2).orElse fun _ =>
  ((matchBlock s).map fun p => MatchRes.block p.1 p.2).orElse fun _ =>
  ((matchWhitespacePlus s).map fun r => MatchRes.whitespace r).orElse fun _ =>
  ((matchBadEofString s).map fun _ => MatchRes.badEofString).orElse fun _ =>
  ((matchClipped s).map fun _ => MatchRes.clipped).orElse fun _ =>
  ((matchBoolean s).map fun p => MatchRes.boolean p.1 p.2).orElse fun _ =>
  ((matchDot s).map fun r => MatchRes.dot r).orElse fun _ =>
  (matchMark s).map fun r => MatchRes.mark r

/-- `Block`, src/parser/tokenizer.rs lines 25-28 (`End` is a Lean keyword,
embedded as `stop`). -/
inductive Block where
  | start
  | stop
deriving DecidableEq, Repr

/-- `Token`, src/parser/tokenizer.rs lines 36-44; the borrowed string slices
become `List Char`, and the single-variant `Mark(Mark::Quote)` collapses to
the nullary `mark`. -/
inductive Token where
  | block (b : Block)
  | tString (s : List Char)
  | symbol (s : List Char)
  | number (s : List Char)
  | bool (b : Bool)
  | dot
  | mark
deriving DecidableEq, Repr

/-- `InternalToken`, src/parser/tokenizer.rs lines 91-95. -/
inductive InternalToken where
  | publicToken (t : Token)
  | endOfFile
  | whitespace
deriving DecidableEq, Repr

/-- `TokenizerError`, src/parser/tokenizer.rs lines 119-122. -/
inductive TokenizerError where
  | unexpectedEndOfFile
  | unknownToken
deriving DecidableEq, Repr

/-- `Tokenizer::gen_token`, src/parser/tokenizer.rs lines 133-197.  The
`Tokenizer` state is its remaining input `self.input`, passed and returned
explicitly: the result pairs the `Result` value with the input after the
call.  Both error paths (`UnknownToken` when no alternative matches,
`UnexpectedEndOfFile` for the bad-EOF-string and clipped alternatives)
return before `self.input` is advanced, so they pair the error with the
unchanged input.  On success the input advances to `end_of_token`: the
capture-group end for boolean/symbol/number/dot (lines 164-182), the
whole-match end for the others — which `MatchRes` already accounts for. -/
def genToken (s : List Char) : Except TokenizerError InternalToken × List Char :=
  if s.isEmpty then (.ok .endOfFile, s)
  else
    match runRegex s with
    | none => (.error .unknownToken, s)
    | some res =>
        match res with
        | .whitespace r => (.ok .whitespace, r)
        | .badEofString => (.error .unexpectedEndOfFile, s)
        | .clipped => (.error .unexpectedEndOfFile, s)
        | .goodString b r => (.ok (.publicToken (.tString b)), r)
        | .block c r =>
            (.ok (.publicToken (.block (if c = '(' then .start else .stop))), r)
        | .boolean b r => (.ok (.publicToken (.bool b)), r)
        | .symbol t r => (.ok (.publicToken (.symbol t)), r)
        | .number t r => (.ok (.publicToken (.number t)), r)
        | .dot r => (.ok (.publicToken .dot), r)
        | .mark r => (.ok (.publicToken .mark), r)

/-- The skip loop of `Iterator::next` for `Tokenizer`,
src/parser/tokenizer.rs lines 203-223, run with explicit fuel: repeatedly
call `gen_token`, skipping whitespace results; end of file yields `none`
(iterator exhausted), a public token yields it, an error is propagated (with
the input unchanged by the failing call).  Each whitespace skip consumes at
least one character, so `s.length + 1` fuel always suffices (proved below,
`nextAux_fuel_irrelevant`); the fuel-exhausted arm is unreachable then. -/
def nextAux : Nat → List Char → Option (Except TokenizerError Token) × List Char
  | 0, s => (none, s)
  | fuel + 1, s =>
      match genToken s with
      | (.ok .whitespace, t) => nextAux fuel t
      | (.ok .endOfFile, t) => (none, t)
      | (.ok (.publicToken tok), t) => (some (.ok tok), t)
      | (.error e, _) => (some (.error e), s)

/-- `Iterator::next` for `Tokenizer`, src/parser/tokenizer.rs lines 200-224,
with the always-sufficient fuel. -/
def next (s : List Char) : Option (Except TokenizerError Token) × List Char :=
  nextAux (s.length + 1) s

/-- Driving the iterator to completion: collect the yielded tokens in order;
stop with `none` at end of input, or with the error on a failed scan (the
Rust iterator yields `Some(Err(e))` and its callers stop there).  Run with
explicit fuel; every yielded token consumes at least one character, so
`s.length + 1` fuel always suffices (proved below,
`tokenizeAux_fuel_irrelevant`). -/
def tokenizeAux : Nat → List Char → List Token × Option TokenizerError
  | 0, _ => ([], none)
  | fuel + 1, s =>
      match next s with
      | (none, _) => ([], none)
      | (some (.error e), _) => ([], some e)
      | (some (.ok t), s') =>
          let p := tokenizeAux fuel s'
          (t :: p.1, p.2)

/-- The full scan of an input, with the always-sufficient fuel. -/
def tokenize (s : List Char) : List Token × Option TokenizerError :=
  tokenizeAux (s.length + 1) s

/-- A symbol-shaped text, following the grammar of
src/parser/tokenizer.rs lines 52-59: a normal symbol (an initial character
followed by subsequent characters) or one of the three odd symbols. -/
def SymbolShaped (text : List Char) : Prop :=
  (∃ c cs, text = c :: cs ∧ isInitial c = true ∧ ∀ d ∈ cs, isSubsequent d = true) ∨
    text = ['+'] ∨ text = ['-'] ∨ text = ['.', '.', '.']

/-- The remaining input begins with one of the delimiters named by the spec:
`(`, `)`, whitespace, `;` — or is empty (end of input). -/
def DelimiterFollows (rest : List Char) : Prop :=
  rest = [] ∨ ∃ d t, rest = d :: t ∧
    (isSpaceChar d = true ∨ d = '(' ∨ d = ')' ∨ d = ';')


theorem dropWhile_length_le (p : Char → Bool) (s : List Char) :
    (s.dropWhile p).length ≤ s.length := by
  induction s with
  | nil => simp
  | cons c t ih =>
      by_cases h : p c
      · simp [List.dropWhile_cons, h]
        omega
      · simp [List.dropWhile_cons, h]

theorem matchWhitespaceOne_length {s t : List Char}
    (h : matchWhitespaceOne s = some t) : t.length < s.length := by
  match s with
  | [] => simp [matchWhitespaceOne] at h
  | c :: t0 =>
      simp only [matchWhitespaceOne] at h
      split at h
      · cases h
        simp
      · split at h
        · cases h
          have := dropWhile_length_le (fun d => !(d = newlineChar)) t0
          simp only [List.length_cons]
          omega
        · cases h

theorem whitespaceStarAux_length_le (fuel : Nat) (s : List Char) :
    (whitespaceStarAux fuel s).length ≤ s.length := by
  induction fuel generalizing s with
  | zero => simp [whitespaceStarAux]
  | succ n ih =>
      simp only [whitespaceStarAux]
      split
      · next t h =>
          exact le_trans (ih t) (le_of_lt (matchWhitespaceOne_length h))
      · exact le_refl _

/-- With fuel at least the input length, the fueled whitespace `*` runs to
completion: no further whitespace iteration matches at its result. -/
theorem whitespaceStarAux_none (fuel : Nat) (s : List Char) (hf : s.length ≤ fuel) :
    matchWhitespaceOne (whitespaceStarAux fuel s) = none := by
  induction fuel generalizing s with
  | zero =>
      have hs : s = [] := by
        cases s with
        | nil => rfl
        | cons c t => simp at hf
      subst hs
      simp [whitespaceStarAux, matchWhitespaceOne]
  | succ n ih =>
      simp only [whitespaceStarAux]
      split
      · next t h =>
          exact ih t (by have := matchWhitespaceOne_length h; omega)
      · next h =>
          exact h

theorem takeWhile_dropWhile_length (p : Char → Bool) (s : List Char) :
    (s.takeWhile p).length + (s.dropWhile p).length = s.length := by
  conv_rhs => rw [← List.takeWhile_append_dropWhile (p := p) (l := s)]
  rw [List.length_append]

theorem matchNumberCore_length {s ds rest : List Char}
    (h : matchNumberCore s = some (ds, rest)) :
    rest.length < s.length := by
  simp only [matchNumberCore] at h
  split at h
  · cases h
  · split at h
    · next hemp _ =>
        cases h
        have hlen := takeWhile_dropWhile_length isDigitChar s
        have hne : s.takeWhile isDigitChar ≠ [] := by
          intro hnil
          simp [hnil] at hemp
        have : 0 < (s.takeWhile isDigitChar).length := List.length_pos.mpr hne
        omega
    · cases h

theorem matchNumber_length {s text rest : List Char}
    (h : matchNumber s = some (text, rest)) : rest.length < s.length := by
  match s with
  | [] => simp [matchNumber] at h
  | c :: t =>
      simp only [matchNumber] at h
      split at h
      · split at h
        · next ds r hcore =>
            cases h
            have := matchNumberCore_length hcore
            simp only [List.length_cons]
            omega
        · exact matchNumberCore_length h
      · exact matchNumberCore_length h

theorem matchNormalSymbol_length {s text rest : List Char}
    (h : matchNormalSymbol s = some (text, rest)) : rest.length < s.length := by
  match s with
  | [] => simp [matchNormalSymbol] at h
  | c :: t =>
      simp only [matchNormalSymbol] at h
      split at h
      · split at h
        · cases h
          have := dropWhile_length_le isSubsequent t
          simp only [List.length_cons]
          omega
        · cases h
      · cases h

theorem matchOddSymbol_length {s text rest : List Char}
    (h : matchOddSymbol s = some (text, rest)) : rest.length < s.length := by
  match s with
  | [] => simp [matchOddSymbol] at h
  | c :: t =>
      simp only [matchOddSymbol] at h
      split at h
      · split at h
        · cases h
          simp
        · cases h
      · split at h
        · split at h
          · split at h
            · cases h
              rename_i ht _ _
              subst ht
              simp
              omega
            · cases h
          · cases h
        · cases h

theorem matchSymbol_length {s text rest : List Char}
    (h : matchSymbol s = some (text, rest)) : rest.length < s.length := by
  cases hn : matchNormalSymbol s with
  | none =>
      have ho : matchOddSymbol s = some (text, rest) := by
        simpa [matchSymbol, Option.orElse, hn] using h
      exact matchOddSymbol_length ho
  | some p =>
      obtain ⟨a, b⟩ := p
      have hp : a = text ∧ b = rest := by
        have h2 := h
        simp [matchSymbol, Option.orElse, hn] at h2
        exact h2
      obtain ⟨rfl, rfl⟩ := hp
      exact matchNormalSymbol_length hn

theorem takeStringBody_append : ∀ (s : List Char), (takeStringBody s).1 ++ (takeStringBody s).2 = s
  | [] => by simp [takeStringBody]
  | c :: t => by
      by_cases hb : c = backslashChar
      · cases t with
        | nil => simp [takeStringBody, hb]
        | cons c2 t2 =>
            by_cases hn : c2 = newlineChar
            · simp [takeStringBody, hb, hn]
            · have ih := takeStringBody_append t2
              rcases hx : takeStringBody t2 with ⟨b, r⟩
              rw [hx] at ih
              unfold takeStringBody
              simp [hb, hn, hx, ih]
      · by_cases hq : c = dquoteChar
        · unfold takeStringBody
          simp [hb, hq, show dquoteChar ≠ backslashChar by decide]
        · by_cases hn : c = newlineChar
          · unfold takeStringBody
            simp [hb, hq, hn, show newlineChar ≠ backslashChar by decide]
          · have ih := takeStringBody_append t
            rcases hx : takeStringBody t with ⟨b, r⟩
            rw [hx] at ih
            unfold takeStringBody
            simp [hb, hq, hn, hx, ih]

theorem takeStringBody_length (s : List Char) :
    (takeStringBody s).2.length ≤ s.length := by
  have h := congrArg List.length (takeStringBody_append s)
  simp only [List.length_append] at h
  omega

theorem matchGoodString_length {s body rest : List Char}
    (h : matchGoodString s = some (body, rest)) : rest.length < s.length := by
  match s with
  | [] => simp [matchGoodString] at h
  | c :: t =>
      simp only [matchGoodString] at h
      split at h
      · rcases hx : takeStringBody t with ⟨b, r⟩
        rw [hx] at h
        have hr := takeStringBody_length t
        rw [hx] at hr
        match r, h, hr with
        | c2 :: r', h, hr =>
            simp only at h
            split at h
            · cases h
              simp only [List.length_cons] at hr ⊢
              omega
            · cases h
      · cases h

theorem matchWhitespacePlus_length {s rest : List Char}
    (h : matchWhitespacePlus s = some rest) : rest.length < s.length := by
  simp only [matchWhitespacePlus] at h
  split at h
  · next t ht =>
      cases h
      have h1 := whitespaceStarAux_length_le t.length t
      have h2 := matchWhitespaceOne_length ht
      omega
  · cases h

theorem matchBoolean_length {s : List Char} {b : Bool} {rest : List Char}
    (h : matchBoolean s = some (b, rest)) : rest.length < s.length := by
  simp only [matchBoolean] at h
  split at h
  · split at h
    · cases h
      simp only [List.length_cons]
      omega
    · simp at h
  · split at h
    · cases h
      simp only [List.length_cons]
      omega
    · simp at h
  · simp at h

theorem matchDot_length {s rest : List Char}
    (h : matchDot s = some rest) : rest.length < s.length := by
  simp only [matchDot] at h
  split at h
  · split at h
    · cases h
      simp
    · simp at h
  · simp at h

theorem matchMark_length {s rest : List Char}
    (h : matchMark s = some rest) : rest.length < s.length := by
  match s with
  | [] => simp [matchMark] at h
  | c :: t =>
      simp only [matchMark] at h
      split at h
      · cases h
        simp
      · cases h

theorem matchBlock_length {s : List Char} {c : Char} {rest : List Char}
    (h : matchBlock s = some (c, rest)) : rest.length < s.length := by
  simp only [matchBlock] at h
  split at h
  · cases h
    simp
  · cases h
    simp
  · simp at h

theorem runRegex_inv {s : List Char} {res : MatchRes} (h : runRegex s = some res) :
    (∃ t r, res = .number t r ∧ matchNumber s = some (t, r)) ∨
    ((∃ t r, res = .symbol t r ∧ matchSymbol s = some (t, r)) ∨
    ((∃ b r, res = .goodString b r ∧ matchGoodString s = some (b, r)) ∨
    ((∃ c r, res = .block c r ∧ matchBlock s = some (c, r)) ∨
    ((∃ r, res = .whitespace r ∧ matchWhitespacePlus s = some r) ∨
    ((res = .badEofString ∧ matchBadEofString s = some ()) ∨
    ((res = .clipped ∧ matchClipped s = some ()) ∨
    ((∃ b r, res = .boolean b r ∧ matchBoolean s = some (b, r)) ∨
    ((∃ r, res = .dot r ∧ matchDot s = some r) ∨
    (∃ r, res = .mark r ∧ matchMark s = some r)))))))))  := by
  unfold runRegex at h
  cases h1 : matchNumber s with
  | some p =>
      obtain ⟨a, b⟩ := p
      simp only [h1, Option.map, Option.orElse] at h
      exact Or.inl ⟨a, b, (Option.some.inj h).symm, rfl⟩
  | none =>
  simp only [h1, Option.map, Option.orElse] at h
  cases h2 : matchSymbol s with
  | some p =>
      obtain ⟨a, b⟩ := p
      simp only [h2, Option.map, Option.orElse] at h
      exact Or.inr (Or.inl ⟨a, b, (Option.some.inj h).symm, rfl⟩)
  | none =>
  simp only [h2, Option.map, Option.orElse] at h
  cases h3 : matchGoodString s with
  | some p =>
      obtain ⟨a, b⟩ := p
      simp only [h3, Option.map, Option.orElse] at h
      exact Or.inr (Or.inr (Or.inl ⟨a, b, (Option.some.inj h).symm, rfl⟩))
  | none =>
  simp only [h3, Option.map, Option.orElse] at h
  cases h4 : matchBlock s with
  | some p =>
      obtain ⟨a, b⟩ := p
      simp only [h4, Option.map, Option.orElse] at h
      exact Or.inr (Or.inr (Or.inr (Or.inl ⟨a, b, (Option.some.inj h).symm, rfl⟩)))
  | none =>
  simp only [h4, Option.map, Option.orElse] at h
  cases h5 : matchWhitespacePlus s with
  | some p =>
      simp only [h5, Option.map, Option.orElse] at h
      exact Or.inr (Or.inr (Or.inr (Or.inr (Or.inl ⟨p, (Option.some.inj h).symm, rfl⟩))))
  | none =>
  simp only [h5, Option.map, Option.orElse] at h
  cases h6 : matchBadEofString s with
  | some p =>
      obtain ⟨⟩ := p
      simp only [h6, Option.map, Option.orElse] at h
      exact Or.inr (Or.inr (Or.inr (Or.inr (Or.inr (Or.inl ⟨(Option.some.inj h).symm, rfl⟩)))))
  | none =>
  simp only [h6, Option.map, Option.orElse] at h
  cases h7 : matchClipped s with
  | some p =>
      obtain ⟨⟩ := p
      simp only [h7, Option.map, Option.orElse] at h
      exact Or.inr (Or.inr (Or.inr (Or.inr (Or.inr (Or.inr (Or.inl ⟨(Option.some.inj h).symm, rfl⟩))))))
  | none =>
  simp only [h7, Option.map, Option.orElse] at h
  cases h8 : matchBoolean s with
  | some p =>
      obtain ⟨a, b⟩ := p
      simp only [h8, Option.map, Option.orElse] at h
      exact Or.inr (Or.inr (Or.inr (Or.inr (Or.inr (Or.inr (Or.inr (Or.inl ⟨a, b, (Option.some.inj h).symm, rfl⟩)))))))
  | none =>
  simp only [h8, Option.map, Option.orElse] at h
  cases h9 : matchDot s with
  | some p =>
      simp only [h9, Option.map, Option.orElse] at h
      exact Or.inr (Or.inr (Or.inr (Or.inr (Or.inr (Or.inr (Or.inr (Or.inr (Or.inl ⟨p, (Option.some.inj h).symm, rfl⟩))))))))
  | none =>
  simp only [h9, Option.map, Option.orElse] at h
  cases h10 : matchMark s with
  | some p =>
      simp only [h10, Option.map, Option.orElse] at h
      exact Or.inr (Or.inr (Or.inr (Or.inr (Or.inr (Or.inr (Or.inr (Or.inr (Or.inr ⟨p, (Option.some.inj h).symm, rfl⟩))))))))
  | none =>
  simp only [h10, Option.map, Option.orElse] at h
  exact absurd h (by simp)

/-- Any successful scan step other than end-of-file strictly shortens the
remaining input: every grammar alternative that produces a token or a
whitespace skip consumes at least one character. -/
theorem genToken_ok_length {s out : List Char} {tok : InternalToken}
    (h : genToken s = (.ok tok, out)) (hne : tok ≠ InternalToken.endOfFile) :
    out.length < s.length := by
  by_cases hs : s.isEmpty
  · rw [genToken, if_pos hs] at h
    cases h
    exact absurd rfl hne
  · rw [genToken, if_neg hs] at h
    cases hr : runRegex s with
    | none =>
        rw [hr] at h
        simp at h
    | some res =>
        rw [hr] at h
        rcases runRegex_inv hr with
          ⟨t, r, rfl, hm⟩ | ⟨t, r, rfl, hm⟩ | ⟨b, r, rfl, hm⟩ | ⟨c, r, rfl, hm⟩ |
          ⟨r, rfl, hm⟩ | ⟨rfl, hm⟩ | ⟨rfl, hm⟩ | ⟨b, r, rfl, hm⟩ | ⟨r, rfl, hm⟩ |
          ⟨r, rfl, hm⟩
        · cases h
          exact matchNumber_length hm
        · cases h
          exact matchSymbol_length hm
        · cases h
          exact matchGoodString_length hm
        · cases h
          exact matchBlock_length hm
        · cases h
          exact matchWhitespacePlus_length hm
        · simp at h
        · simp at h
        · cases h
          exact matchBoolean_length hm
        · cases h
          exact matchDot_length hm
        · cases h
          exact matchMark_length hm

/-- A failing scan step does not move the tokenizer: both error branches of
`gen_token` return before `self.input` is updated
(src/parser/tokenizer.rs lines 142, 151, 194). -/
theorem genToken_error_state {s out : List Char} {e : TokenizerError}
    (h : genToken s = (.error e, out)) : out = s := by
  by_cases hs : s.isEmpty
  · rw [genToken, if_pos hs] at h
    simp at h
  · rw [genToken, if_neg hs] at h
    cases hr : runRegex s with
    | none =>
        rw [hr] at h
        cases h
        rfl
    | some res =>
        rw [hr] at h
        cases res with
        | badEofString =>
            cases h
            rfl
        | clipped =>
            cases h
            rfl
        | number t r => simp at h
        | symbol t r => simp at h
        | goodString b r => simp at h
        | block c r => simp at h
        | whitespace r => simp at h
        | boolean b r => simp at h
        | dot r => simp at h
        | mark r => simp at h

/-- The scan result is independent of the fuel, as long as the fuel exceeds
the input length (each whitespace skip consumes at least one character). -/
theorem nextAux_fuel_irrelevant :
    ∀ (f1 f2 : Nat) (s : List Char), s.length < f1 → s.length < f2 →
      nextAux f1 s = nextAux f2 s
  | 0, _, s, h1, _ => absurd h1 (by omega)
  | _ + 1, 0, s, _, h2 => absurd h2 (by omega)
  | f1 + 1, f2 + 1, s, h1, h2 => by
      simp only [nextAux]
      cases hg : genToken s with
      | mk res t =>
          cases res with
          | ok itok =>
              cases itok with
              | whitespace =>
                  have hlt : t.length < s.length :=
                    genToken_ok_length hg (by intro hh; cases hh)
                  exact nextAux_fuel_irrelevant f1 f2 t (by omega) (by omega)
              | endOfFile => rfl
              | publicToken tk => rfl
          | error e => rfl

theorem next_eq_nextAux (fuel : Nat) (s : List Char) (h : s.length < fuel) :
    next s = nextAux fuel s :=
  nextAux_fuel_irrelevant (s.length + 1) fuel s (by omega) h

/-- A scan that yields a public token strictly shortens the remaining
input. -/
theorem nextAux_ok_length :
    ∀ (fuel : Nat) (s : List Char) (tok : Token) (s' : List Char),
      nextAux fuel s = (some (.ok tok), s') → s'.length < s.length
  | 0, s, tok, s', h => by simp [nextAux] at h
  | fuel + 1, s, tok, s', h => by
      simp only [nextAux] at h
      cases hg : genToken s with
      | mk res t =>
          rw [hg] at h
          cases res with
          | ok itok =>
              cases itok with
              | whitespace =>
                  have h1 := nextAux_ok_length fuel t tok s' h
                  have h2 : t.length < s.length :=
                    genToken_ok_length hg (by intro hh; cases hh)
                  omega
              | endOfFile => simp at h
              | publicToken tk =>
                  cases h
                  exact genToken_ok_length hg (by intro hh; cases hh)
          | error e => simp at h

theorem next_ok_length {s : List Char} {tok : Token} {s' : List Char}
    (h : next s = (some (.ok tok), s')) : s'.length < s.length :=
  nextAux_ok_length (s.length + 1) s tok s' h

/-- After a failing `next()` the tokenizer sits exactly at the failure point:
the very next `gen_token` fails the same way with the input unchanged, so
every further `next()` keeps returning the same error. -/
theorem nextAux_error_stable :
    ∀ (fuel : Nat) (s : List Char) (e : TokenizerError) (s' : List Char),
      nextAux fuel s = (some (.error e), s') → genToken s' = (.error e, s')
  | 0, s, e, s', h => by simp [nextAux] at h
  | fuel + 1, s, e, s', h => by
      simp only [nextAux] at h
      cases hg : genToken s with
      | mk res t =>
          rw [hg] at h
          cases res with
          | ok itok =>
              cases itok with
              | whitespace => exact nextAux_error_stable fuel t e s' h
              | endOfFile => simp at h
              | publicToken tk => simp at h
          | error e2 =>
              cases h
              rw [hg, genToken_error_state hg]

theorem next_error_stable {s : List Char} {e : TokenizerError} {s' : List Char}
    (h : next s = (some (.error e), s')) :
    next s' = (some (.error e), s') := by
  have hg := nextAux_error_stable (s.length + 1) s e s' h
  show nextAux (s'.length + 1) s' = (some (.error e), s')
  simp only [nextAux, hg]

theorem tokenizeAux_fuel_irrelevant :
    ∀ (f1 f2 : Nat) (s : List Char), s.length < f1 → s.length < f2 →
      tokenizeAux f1 s = tokenizeAux f2 s
  | 0, _, s, h1, _ => absurd h1 (by omega)
  | _ + 1, 0, s, _, h2 => absurd h2 (by omega)
  | f1 + 1, f2 + 1, s, h1, h2 => by
      simp only [tokenizeAux]
      cases hn : next s with
      | mk o t =>
          cases o with
          | none => rfl
          | some r =>
              cases r with
              | error e => rfl
              | ok tk =>
                  have hlt : t.length < s.length := next_ok_length hn
                  have heq := tokenizeAux_fuel_irrelevant f1 f2 t (by omega) (by omega)
                  simp [heq]

/-- The number of tokens a full scan yields is bounded by the input length:
scanning any finite input produces finitely many tokens. -/
theorem tokenizeAux_length :
    ∀ (fuel : Nat) (s : List Char), (tokenizeAux fuel s).1.length ≤ s.length
  | 0, s => by simp [tokenizeAux]
  | fuel + 1, s => by
      simp only [tokenizeAux]
      cases hn : next s with
      | mk o t =>
          cases o with
          | none => simp
          | some r =>
              cases r with
              | error e => simp
              | ok tk =>
                  have h1 := tokenizeAux_length fuel t
                  have h2 : t.length < s.length := next_ok_length hn
                  simp only [List.length_cons]
                  omega

theorem initial_not_sign {c : Char} (h : isInitial c = true) : c ≠ '+' ∧ c ≠ '-' := by
  refine ⟨fun heq => ?_, fun heq => ?_⟩ <;>
    (subst heq; exact absurd h (by decide))

theorem initial_not_digit {c : Char} (h : isInitial c = true) : isDigitChar c = false := by
  simp only [isInitial, isAlphaChar, isSpecialInitial, Bool.or_eq_true, Bool.and_eq_true,
    decide_eq_true_eq] at h
  rcases h with (⟨h1, h2⟩ | ⟨h1, h2⟩) | h
  · simp only [isDigitChar, Bool.and_eq_false_iff]
    simp only [decide_eq_false_iff_not, not_le]
    omega
  · simp only [isDigitChar, Bool.and_eq_false_iff]
    simp only [decide_eq_false_iff_not, not_le]
    omega
  · rcases h with (((((((((((((rfl | rfl) | rfl) | rfl) | rfl) | rfl) | rfl) | rfl) | rfl) | rfl) | rfl) | rfl) | rfl) | rfl) <;> decide

theorem spaceChar_cases {d : Char} (h : isSpaceChar d = true) :
    ((((d = ' ' ∨ d = Char.ofNat 9) ∨ d = Char.ofNat 10) ∨ d = Char.ofNat 11) ∨
      d = Char.ofNat 12) ∨ d = Char.ofNat 13 := by
  simpa [isSpaceChar] using h

theorem claimDelim_not_subsequent {d : Char}
    (h : isSpaceChar d = true ∨ d = '(' ∨ d = ')' ∨ d = ';') :
    isSubsequent d = false := by
  rcases h with h | rfl | rfl | rfl
  · rcases spaceChar_cases h with (((((rfl | rfl) | rfl) | rfl) | rfl) | rfl) <;> decide
  · decide
  · decide
  · decide

theorem not_subsequent_not_digit {d : Char} (h : isSubsequent d = false) :
    isDigitChar d = false := by
  simp only [isSubsequent, Bool.or_eq_false_iff] at h
  exact h.1.1

theorem claimDelim_isDelimChar {d : Char}
    (h : isSpaceChar d = true ∨ d = '(' ∨ d = ')' ∨ d = ';') :
    isDelimChar d = true := by
  rcases h with h | rfl | rfl | rfl
  · simp [isDelimChar, h]
  · decide
  · decide
  · decide

theorem takeWhile_append_all {p : Char → Bool} :
    ∀ (xs ys : List Char), (∀ c ∈ xs, p c = true) →
      (∀ y t, ys = y :: t → p y = false) →
      (xs ++ ys).takeWhile p = xs ∧ (xs ++ ys).dropWhile p = ys
  | [], ys, _, hys => by
      cases ys with
      | nil => simp
      | cons y t =>
          simp [List.takeWhile_cons, List.dropWhile_cons, hys y t rfl]
  | x :: xs, ys, hxs, hys => by
      have hx : p x = true := hxs x (by simp)
      have ih := takeWhile_append_all xs ys (fun c hc => hxs c (by simp [hc])) hys
      simp [List.takeWhile_cons, List.dropWhile_cons, hx, ih.1, ih.2]

/-- Claim C4: for every symbol-shaped text immediately followed by `(`, `)`,
whitespace, `;`, or end of input, one scan step yields exactly one Symbol
token spanning the symbol spelling and excluding the delimiter, and the
remaining input after the step still begins with the delimiter (the position
advances only to the end of the semantic token). -/
theorem c4_symbol_token (text rest : List Char)
    (hshape : SymbolShaped text) (hdelim : DelimiterFollows rest) :
    genToken (text ++ rest) = (.ok (.publicToken (.symbol text)), rest) := by
  have hdelmer : delmerAt rest = true := by
    rcases hdelim with rfl | ⟨d, t, rfl, hd⟩
    · rfl
    · simp [delmerAt, claimDelim_isDelimChar hd]
  have hrestsub : ∀ y t2, rest = y :: t2 → isSubsequent y = false := by
    rcases hdelim with rfl | ⟨d, t, rfl, hd⟩
    · intro y t2 hr
      cases hr
    · intro y t2 hr
      cases hr
      exact claimDelim_not_subsequent hd
  have hcorerest : matchNumberCore rest = none := by
    cases hr : rest with
    | nil => rfl
    | cons y t2 =>
        have hy := not_subsequent_not_digit (hrestsub y t2 hr)
        simp [matchNumberCore, List.takeWhile_cons, hy]
  rcases hshape with ⟨c, cs, rfl, hc, hcs⟩ | rfl | rfl | rfl
  · obtain ⟨hsign1, hsign2⟩ := initial_not_sign hc
    have hdig := initial_not_digit hc
    have hnum : matchNumber (c :: (cs ++ rest)) = none := by
      simp only [matchNumber]
      rw [if_neg (by simp [hsign1, hsign2])]
      simp [matchNumberCore, List.takeWhile_cons, hdig]
    have htd := takeWhile_append_all cs rest hcs hrestsub
    have hsymn : matchNormalSymbol (c :: (cs ++ rest)) = some (c :: cs, rest) := by
      simp only [matchNormalSymbol]
      rw [if_pos hc]
      simp [htd.1, htd.2, hdelmer]
    have hsym : matchSymbol (c :: (cs ++ rest)) = some (c :: cs, rest) := by
      simp [matchSymbol, hsymn, Option.orElse]
    have hrr : runRegex (c :: (cs ++ rest)) = some (.symbol (c :: cs) rest) := by
      simp [runRegex, hnum, hsym, Option.orElse]
    show genToken (c :: (cs ++ rest)) = (.ok (.publicToken (.symbol (c :: cs))), rest)
    rw [genToken, if_neg (by simp), hrr]
  · have hnum : matchNumber ('+' :: rest) = none := by
      simp only [matchNumber]
      rw [if_pos (by decide)]
      rw [hcorerest]
      simp [matchNumberCore, List.takeWhile_cons,
        show isDigitChar '+' = false from by decide]
    have hsym : matchSymbol ('+' :: rest) = some (['+'], rest) := by
      simp [matchSymbol, matchNormalSymbol, matchOddSymbol, Option.orElse, hdelmer,
        show isInitial '+' = false from by decide]
    have hrr : runRegex ('+' :: rest) = some (.symbol ['+'] rest) := by
      simp [runRegex, hnum, hsym, Option.orElse]
    show genToken ('+' :: rest) = (.ok (.publicToken (.symbol ['+'])), rest)
    rw [genToken, if_neg (by simp), hrr]
  · have hnum : matchNumber ('-' :: rest) = none := by
      simp only [matchNumber]
      rw [if_pos (by decide)]
      rw [hcorerest]
      simp [matchNumberCore, List.takeWhile_cons,
        show isDigitChar '-' = false from by decide]
    have hsym : matchSymbol ('-' :: rest) = some (['-'], rest) := by
      simp [matchSymbol, matchNormalSymbol, matchOddSymbol, Option.orElse, hdelmer,
        show isInitial '-' = false from by decide]
    have hrr : runRegex ('-' :: rest) = some (.symbol ['-'] rest) := by
      simp [runRegex, hnum, hsym, Option.orElse]
    show genToken ('-' :: rest) = (.ok (.publicToken (.symbol ['-'])), rest)
    rw [genToken, if_neg (by simp), hrr]
  · have hnum : matchNumber ('.' :: '.' :: '.' :: rest) = none := by
      simp only [matchNumber]
      rw [if_neg (by decide)]
      simp [matchNumberCore, List.takeWhile_cons,
        show isDigitChar '.' = false from by decide]
    have hsym : matchSymbol ('.' :: '.' :: '.' :: rest) = some (['.', '.', '.'], rest) := by
      simp [matchSymbol, matchNormalSymbol, matchOddSymbol, Option.orElse, hdelmer,
        show isInitial '.' = false from by decide]
    have hrr : runRegex ('.' :: '.' :: '.' :: rest) = some (.symbol ['.', '.', '.'] rest) := by
      simp [runRegex, hnum, hsym, Option.orElse]
    show genToken ('.' :: '.' :: '.' :: rest) =
      (.ok (.publicToken (.symbol ['.', '.', '.'])), rest)
    rw [genToken, if_neg (by simp), hrr]

/-- Witness for C4 at the concrete input `ab(x`: the scan yields the Symbol
token `ab` and stops right before the `(`. -/
theorem c4_symbol_token_witness :
    genToken ("ab".data ++ "(x".data) = (.ok (.publicToken (.symbol "ab".data)), "(x".data) :=
  c4_symbol_token "ab".data "(x".data
    (Or.inl ⟨'a', ['b'], rfl, by decide, by decide⟩)
    (Or.inr ⟨'(', "x".data, rfl, by decide⟩)

/-- Claim C1 (counterexample): the claim says a rejected dotted-tail append
"returns the rejected tail node t unchanged as the error payload so the
caller does not lose the value".  In the code `build_with_tail` returns
`Option<AstList>` and the failure case is the bare `None`: no function can
recover the rejected tail from the result, because the two distinct
improper-list tails used below are both mapped to the same `none`. -/
theorem c1_counterexample :
    ¬ ∃ recover : Option AstList → AstNode,
        ∀ (b : AstListBuilder) (t : AstNode),
          AstListBuilder.buildWithTail b t = none →
            recover (AstListBuilder.buildWithTail b t) = t := by
  rintro ⟨recover, hrec⟩
  have h1 := hrec AstListBuilder.new (.list [] (.improper (.number 1))) rfl
  have h2 := hrec AstListBuilder.new (.list [] (.improper (.number 2))) rfl
  rw [show AstListBuilder.buildWithTail AstListBuilder.new
      (.list [] (.improper (.number 1))) = none from rfl] at h1
  rw [show AstListBuilder.buildWithTail AstListBuilder.new
      (.list [] (.improper (.number 2))) = none from rfl] at h2
  rw [h1] at h2
  simp at h2

/-- Claim C1 (amended): `build_with_tail` fails exactly when the accumulator
is empty and the supplied tail node is an improper list, and in every other
case it succeeds; but on failure it returns `None`, dropping the rejected
tail node rather than handing it back as an error payload. -/
theorem c1_build_with_tail_none_iff :
    ∀ (b : AstListBuilder) (t : AstNode),
      AstListBuilder.buildWithTail b t = none ↔
        (b.nodes = [] ∧ t.isImproperList = true) := by
  intro b t
  cases t with
  | nonList x =>
      simp [AstListBuilder.buildWithTail, AstNode.isImproperList]
  | list nodes lt =>
      simp only [AstListBuilder.buildWithTail, AstNode.isImproperList]
      split
      · next hcond =>
          simp only [Bool.and_eq_true, List.isEmpty_iff] at hcond
          simp [hcond.1, hcond.2]
      · next hcond =>
          simp only [Bool.and_eq_true, List.isEmpty_iff] at hcond
          simp [hcond]

/-- Claim C2: two Generated symbols from back-to-back `gen_temp` calls are
never equal, a Generated symbol is never equal to a Core or User-defined
symbol whatever the spellings, and `AstSymbol` equality is exactly
same-origin-same-payload equality. -/
theorem c2_symbol_identity :
    (∀ count : Nat, count < 2 ^ 64 →
        (AstSymbol.genTemp count).1 ≠ (AstSymbol.genTemp (AstSymbol.genTemp count).2).1) ∧
    (∀ (k : Nat) (c : CoreSymbol), AstSymbol.mk (.temp k) ≠ AstSymbol.mk (.core c)) ∧
    (∀ (k : Nat) (name : String), AstSymbol.mk (.temp k) ≠ AstSymbol.mk (.defined name)) ∧
    (∀ i j : Nat, AstSymbol.mk (.temp i) = AstSymbol.mk (.temp j) ↔ i = j) ∧
    (∀ c d : CoreSymbol, AstSymbol.mk (.core c) = AstSymbol.mk (.core d) ↔ c = d) ∧
    (∀ a b : String, AstSymbol.mk (.defined a) = AstSymbol.mk (.defined b) ↔ a = b) := by
  refine ⟨?_, ?_, ?_, ?_, ?_, ?_⟩
  · intro count hlt
    simp only [AstSymbol.genTemp, ne_eq, AstSymbol.mk.injEq, AstSymbolInner.temp.injEq]
    rcases Nat.lt_or_ge (count + 1) (2 ^ 64) with h | h
    · rw [Nat.mod_eq_of_lt h]
      omega
    · have he : count + 1 = 2 ^ 64 := by omega
      rw [he, Nat.mod_self]
      omega
  · intro k c
    simp
  · intro k name
    simp
  · intro i j
    simp
  · intro c d
    simp
  · intro a b
    simp

/-- Witness for C2 at counter value 0: the first and second generated
symbols differ. -/
theorem c2_symbol_identity_witness :
    (AstSymbol.genTemp 0).1 ≠ (AstSymbol.genTemp (AstSymbol.genTemp 0).2).1 :=
  c2_symbol_identity.1 0 (by norm_num)

/-- Claim C3: reifying a proper-list node gives the nested-pair chain of the
recursively reified children in left-to-right order terminated by the
empty-list sentinel, and reifying an improper-list node gives the same chain
terminated by the reified tail leaf instead. -/
theorem c3_to_datum_pair_chain :
    (∀ nodes : List AstNode,
        AstNode.toDatum (.list nodes .proper) =
          (nodes.map AstNode.toDatum).foldr SchemeType.pair SchemeType.emptyList) ∧
    (∀ (nodes : List AstNode) (tailLeaf : AstNodeNonList),
        AstNode.toDatum (.list nodes (.improper tailLeaf)) =
          (nodes.map AstNode.toDatum).foldr SchemeType.pair tailLeaf.toDatum) := by
  have key : ∀ (nodes : List AstNode) (lt : ListType),
      AstNode.toDatum (.list nodes lt) =
        (nodes.map AstNode.toDatum).foldr SchemeType.pair lt.toDatum := by
    intro nodes lt
    induction nodes with
    | nil => simp [AstNode.toDatum]
    | cons n rest ih => simp [AstNode.toDatum, ih]
  exact ⟨fun nodes => by simpa [ListType.toDatum] using key nodes .proper,
    fun nodes tailLeaf => by simpa [ListType.toDatum] using key nodes (.improper tailLeaf)⟩

/-- Claim C5: `"abc"` scans to one String token with raw body `abc`; an
unterminated `"abc` (with or without a trailing lone backslash) fails with
`UnexpectedEndOfFile`; `#x` fails with `UnknownToken`; inputs that are
exactly `..` or a lone `#` fail with `UnexpectedEndOfFile`. -/
theorem c5_error_taxonomy :
    tokenize (dquoteChar :: 'a' :: 'b' :: 'c' :: [dquoteChar]) =
        ([.tString ['a', 'b', 'c']], none) ∧
    tokenize (dquoteChar :: 'a' :: 'b' :: 'c' :: []) =
        ([], some .unexpectedEndOfFile) ∧
    tokenize (dquoteChar :: 'a' :: 'b' :: 'c' :: [backslashChar]) =
        ([], some .unexpectedEndOfFile) ∧
    tokenize ('#' :: 'x' :: []) = ([], some .unknownToken) ∧
    tokenize ('.' :: '.' :: []) = ([], some .unexpectedEndOfFile) ∧
    tokenize ('#' :: []) = ([], some .unexpectedEndOfFile) :=
  ⟨rfl, rfl, rfl, rfl, rfl, rfl⟩

/-- Claim C6: appending a list tail splices the tail list's children onto
the accumulator's children and takes over the tail's termination tag
(whenever the failure case does not apply); in particular building `[a, b]`
then appending the proper tail `[c, d]` equals building `[a, b, c, d]`
directly as a proper list. -/
theorem c6_build_with_tail_splices :
    (∀ (b : AstListBuilder) (nodes : List AstNode) (lt : ListType),
        ¬(b.nodes = [] ∧ lt.isImproperList = true) →
          AstListBuilder.buildWithTail b (.list nodes lt) =
            some ⟨b.nodes ++ nodes, lt⟩) ∧
    (∀ a b c d : AstNode,
        ((AstListBuilder.new.push a).push b).buildWithTail (.list [c, d] .proper) =
          some (((((AstListBuilder.new.push a).push b).push c).push d).build)) := by
  constructor
  · intro b nodes lt h
    have hcond : ¬(b.nodes.isEmpty && lt.isImproperList) = true := by
      simp only [Bool.and_eq_true, List.isEmpty_iff]
      exact fun hh => h ⟨hh.1, hh.2⟩
    simp only [AstListBuilder.buildWithTail]
    rw [if_neg hcond]
    rfl
  · intro a b c d
    rfl

/-- Witness for C6 at a nonempty accumulator and the empty proper tail. -/
theorem c6_build_with_tail_splices_witness :
    AstListBuilder.buildWithTail ⟨[AstNode.nonList (.number 7)]⟩ (.list [] .proper) =
      some ⟨[AstNode.nonList (.number 7)] ++ [], .proper⟩ :=
  c6_build_with_tail_splices.1 ⟨[AstNode.nonList (.number 7)]⟩ [] .proper (by simp)

/-- Claim C7: `123`, `+123`, `-123` each scan as a single Number token with
those raw bodies, while `+` alone scans as a Symbol token, not a Number. -/
theorem c7_number_vs_odd_symbol :
    tokenize "123".data = ([.number "123".data], none) ∧
    tokenize "+123".data = ([.number "+123".data], none) ∧
    tokenize "-123".data = ([.number "-123".data], none) ∧
    tokenize "+".data = ([.symbol "+".data], none) :=
  ⟨rfl, rfl, rfl, rfl⟩

/-- Claim C8: the Generated symbol with counter value 0 and the User-defined
symbol spelled `$temp$id0` are unequal as AST symbols, yet `to_datum` maps
both to the same runtime interned symbol value, because the Generated symbol
reifies under its synthesized printable name. -/
theorem c8_reified_name_collision :
    (AstSymbol.genTemp 0).1 ≠ AstSymbol.new "$temp$id0" ∧
    AstNode.toDatum (.nonList (.symbol (AstSymbol.genTemp 0).1)) =
      AstNode.toDatum (.nonList (.symbol (AstSymbol.new "$temp$id0"))) := by
  constructor
  · intro h
    simp [AstSymbol.genTemp, AstSymbol.new] at h
  · simp only [AstNode.toDatum, AstNodeNonList.toDatum, newSymbol, AstSymbol.getName,
      AstSymbol.genTemp, AstSymbol.new]
    rfl

/-- Claim C9: a failing scan step leaves the remaining input unchanged (the
error branches return before the position advance), and after a failing
`next()` every further `next()` yields the same error again. -/
theorem c9_failing_scan_preserves_input :
    (∀ (s out : List Char) (e : TokenizerError),
        genToken s = (.error e, out) → out = s) ∧
    (∀ (s out : List Char) (e : TokenizerError),
        next s = (some (.error e), out) → next out = (some (.error e), out)) := by
  constructor
  · intro s out e h
    exact genToken_error_state h
  · intro s out e h
    exact next_error_stable h

/-- Witness for C9 at the unknown-token input `#x`. -/
theorem c9_failing_scan_preserves_input_witness :
    next ("#x".data) = (some (.error .unknownToken), "#x".data) :=
  c9_failing_scan_preserves_input.2 "#x".data "#x".data .unknownToken rfl

/-- Claim C10: every successful non-end-of-file scan step (token or
whitespace skip) strictly shortens the remaining input, so the skip loop
terminates and a full scan of any finite input yields only finitely many
tokens (at most one per input character). -/
theorem c10_progress_and_termination :
    (∀ (s out : List Char) (tok : InternalToken),
        genToken s = (.ok tok, out) → tok ≠ InternalToken.endOfFile →
          out.length < s.length) ∧
    (∀ s : List Char, (tokenize s).1.length ≤ s.length) := by
  constructor
  · intro s out tok h hne
    exact genToken_ok_length h hne
  · intro s
    exact tokenizeAux_length (s.length + 1) s

/-- Witness for C10 at the single-space input. -/
theorem c10_progress_and_termination_witness :
    ([] : List Char).length < (" ".data).length :=
  c10_progress_and_termination.1 " ".data [] .whitespace rfl
    (fun hh => InternalToken.noConfusion hh)
